import Mathlib

/-!
Verification of the feature-combination test runner `build/run-tests.py`.

The script holds three feature groups, appends the empty string to each,
enumerates the cartesian product of the groups with `itertools.product`
(odometer order, last group fastest), joins each combination with a single
space, prints and flushes a progress line, and synchronously runs
`cargo test --verbose --features <joined>` per combination, aborting with
a message and exit code 1 on the first `CalledProcessError`.
-/

/-- `VAPOURSYNTH_FUNCTIONS = ["vapoursynth-functions"]`. -/
def VAPOURSYNTH_FUNCTIONS : List String := ["vapoursynth-functions"]

/-- `VSSCRIPT_FUNCTIONS = ["vsscript-functions"]`. -/
def VSSCRIPT_FUNCTIONS : List String := ["vsscript-functions"]

/-- `F16_PIXEL_TYPE = ["f16-pixel-type"]`. -/
def F16_PIXEL_TYPE : List String := ["f16-pixel-type"]

/-- The `features` list of groups as declared in the script. -/
def features : List (List String) := [VAPOURSYNTH_FUNCTIONS, VSSCRIPT_FUNCTIONS, F16_PIXEL_TYPE]

/-- One iteration of `for f in features: f += [""]`: append the empty-string
variant at the end of a group. -/
def extendGroup (f : List String) : List String := f ++ [""]

/-- The whole extension loop `for f in features: f += [""]`. -/
def extendGroups (fs : List (List String)) : List (List String) := fs.map extendGroup

/-- The state of `features` after the extension loop. -/
def featuresExtended : List (List String) := extendGroups features

/-- `itertools.product(*features)`: cartesian product in odometer order,
the first argument varying slowest and the last argument varying fastest.
`product()` of no iterables yields exactly one empty tuple. -/
def pyProduct : List (List String) → List (List String)
  | [] => [[]]
  | g :: gs => g.flatMap (fun x => (pyProduct gs).map (fun c => x :: c))

/-- `features_string = str.join(" ", features)`. -/
def featuresString (c : List String) : String := String.intercalate " " c

/-- The joined feature strings the script iterates over, in order. -/
def mainCombos : List String := (pyProduct featuresExtended).map featuresString

/-- The progress line `"Starting tests with features: " + features_string`. -/
def startLine (fs : String) : String := "Starting tests with features: " ++ fs

/-- The failure line `features_string + " failed. Exiting with code 1."`. -/
def failLine (fs : String) : String := fs ++ " failed. Exiting with code 1."

/-- The argument vector passed to `subprocess.run`:
`["cargo", "test", "--verbose", "--features", features_string]`. -/
def cmdArgs (fs : String) : List String := ["cargo", "test", "--verbose", "--features", fs]

/-- Outcome of one `subprocess.run` invocation of the external command.

* `exited c`: the command ran and exited normally with status `c`.
  With `check=True`, `subprocess.run` raises `CalledProcessError` iff `c ≠ 0`.
* `signaled s`: the command was abnormally terminated by signal `s + 1`;
  `subprocess.run` reports `returncode = -(s + 1) ≠ 0`, so with `check=True`
  it always raises `CalledProcessError`.
* `startFailure`: the command could not be started; `subprocess.run` raises
  `OSError` (e.g. `FileNotFoundError`), not `CalledProcessError`. -/
inductive InvokeResult where
  | exited (c : Nat)
  | signaled (s : Nat)
  | startFailure
deriving DecidableEq, Repr

/-- Observable events of the runner process, in order: lines printed to
stdout, explicit flushes, and attempts to invoke the external command. -/
inductive Event where
  | print (s : String)
  | flush
  | invoke (args : List String) (r : InvokeResult)
deriving DecidableEq, Repr

/-- Final state of the runner process.

* `ok`: the loop finished; the interpreter exits with status 0.
* `failedCombo fs`: `CalledProcessError` was caught for combination `fs`;
  the script called `sys.exit(1)`.
* `crashed`: an exception other than `CalledProcessError` propagated out of
  the `try` block (the `except` clause only names `CalledProcessError`);
  the interpreter prints a traceback and exits with status 1. -/
inductive Outcome where
  | ok
  | failedCombo (fs : String)
  | crashed
deriving DecidableEq, Repr

/-- Exit status of the whole process for each outcome. An uncaught Python
exception terminates the interpreter with status 1. -/
def exitCode : Outcome → Nat
  | Outcome.ok => 0
  | Outcome.failedCombo _ => 1
  | Outcome.crashed => 1

/-- The events of one loop iteration up to and including the invocation:
print the progress line, flush stdout, invoke the external command. -/
def stepEvents (fs : String) (r : InvokeResult) : List Event :=
  [Event.print (startLine fs), Event.flush, Event.invoke (cmdArgs fs) r]

/-- The main loop `for features in itertools.product(*features): ...` over an
already-joined list of combination strings.  `res n` is the result of the
`n`-th invocation of the external command (counting from 0).  Returns the
ordered event trace and the final outcome. -/
def run : List String → (Nat → InvokeResult) → List Event × Outcome
  | [], _ => ([], Outcome.ok)
  | fs :: rest, res =>
    match res 0 with
    | InvokeResult.exited 0 =>
        (stepEvents fs (InvokeResult.exited 0) ++ (run rest (fun i => res (i + 1))).1,
         (run rest (fun i => res (i + 1))).2)
    | InvokeResult.exited (c + 1) =>
        (stepEvents fs (InvokeResult.exited (c + 1)) ++ [Event.print (failLine fs)],
         Outcome.failedCombo fs)
    | InvokeResult.signaled s =>
        (stepEvents fs (InvokeResult.signaled s) ++ [Event.print (failLine fs)],
         Outcome.failedCombo fs)
    | InvokeResult.startFailure =>
        (stepEvents fs InvokeResult.startFailure, Outcome.crashed)

/-- The full script: run the loop over the joined product of the extended
groups, with `res` giving each invocation's result. -/
def script (res : Nat → InvokeResult) : List Event × Outcome := run mainCombos res

/-- Number of invocation attempts in an event trace. -/
def countInvoke (es : List Event) : Nat :=
  es.countP (fun e => match e with | Event.invoke _ _ => true | _ => false)

/-- Argument vectors of the invocation attempts in an event trace, in order. -/
def invocationsOf (es : List Event) : List (List String) :=
  es.filterMap (fun e => match e with | Event.invoke a _ => some a | _ => none)

/-- Product of the group sizes of the groups from position `j` on. -/
def tailSizes (gs : List (List String)) (j : Nat) : Nat :=
  ((gs.drop j).map List.length).prod

lemma run_cons_ok (fs : String) (rest : List String) (res : Nat → InvokeResult)
    (h : res 0 = InvokeResult.exited 0) :
    run (fs :: rest) res =
      (stepEvents fs (InvokeResult.exited 0) ++ (run rest (fun i => res (i + 1))).1,
       (run rest (fun i => res (i + 1))).2) := by
  simp [run, h]

lemma run_cons_nonzero (fs : String) (rest : List String) (res : Nat → InvokeResult)
    (c : Nat) (h : res 0 = InvokeResult.exited (c + 1)) :
    run (fs :: rest) res =
      (stepEvents fs (InvokeResult.exited (c + 1)) ++ [Event.print (failLine fs)],
       Outcome.failedCombo fs) := by
  simp [run, h]

lemma run_cons_signaled (fs : String) (rest : List String) (res : Nat → InvokeResult)
    (s : Nat) (h : res 0 = InvokeResult.signaled s) :
    run (fs :: rest) res =
      (stepEvents fs (InvokeResult.signaled s) ++ [Event.print (failLine fs)],
       Outcome.failedCombo fs) := by
  simp [run, h]

lemma run_cons_startFailure (fs : String) (rest : List String) (res : Nat → InvokeResult)
    (h : res 0 = InvokeResult.startFailure) :
    run (fs :: rest) res = (stepEvents fs InvokeResult.startFailure, Outcome.crashed) := by
  simp [run, h]

lemma run_all_ok (combos : List String) (res : Nat → InvokeResult)
    (h : ∀ i, i < combos.length → res i = InvokeResult.exited 0) :
    run combos res =
      (combos.flatMap (fun fs =>
        [Event.print (startLine fs), Event.flush,
         Event.invoke (cmdArgs fs) (InvokeResult.exited 0)]),
       Outcome.ok) := by
  induction combos generalizing res with
  | nil => rfl
  | cons fs rest ih =>
      have h0 : res 0 = InvokeResult.exited 0 := h 0 (Nat.succ_pos _)
      have hrest : ∀ i, i < rest.length → res (i + 1) = InvokeResult.exited 0 :=
        fun i hi => h (i + 1) (Nat.succ_lt_succ hi)
      rw [run_cons_ok fs rest res h0, ih (fun i => res (i + 1)) hrest]
      simp [stepEvents]

lemma countInvoke_append (a b : List Event) :
    countInvoke (a ++ b) = countInvoke a + countInvoke b := by
  simp [countInvoke, List.countP_append]

lemma countInvoke_triples (combos : List String) (f : String → InvokeResult) :
    countInvoke (combos.flatMap (fun fs =>
      [Event.print (startLine fs), Event.flush, Event.invoke (cmdArgs fs) (f fs)]))
      = combos.length := by
  induction combos with
  | nil => rfl
  | cons fs rest ih =>
      simp only [List.flatMap_cons, countInvoke_append, ih]
      simp [countInvoke, Nat.add_comm]

lemma run_fail_at (pre : List String) (fs0 : String) (post : List String)
    (res : Nat → InvokeResult) (c : Nat)
    (hpre : ∀ i, i < pre.length → res i = InvokeResult.exited 0)
    (hfail : res pre.length = InvokeResult.exited (c + 1)) :
    run (pre ++ fs0 :: post) res =
      (pre.flatMap (fun fs =>
        [Event.print (startLine fs), Event.flush,
         Event.invoke (cmdArgs fs) (InvokeResult.exited 0)])
       ++ [Event.print (startLine fs0), Event.flush,
           Event.invoke (cmdArgs fs0) (InvokeResult.exited (c + 1)),
           Event.print (failLine fs0)],
       Outcome.failedCombo fs0) := by
  induction pre generalizing res with
  | nil =>
      simp only [List.length_nil] at hfail
      rw [List.nil_append, run_cons_nonzero fs0 post res c hfail]
      simp [stepEvents]
  | cons fs pre ih =>
      have h0 : res 0 = InvokeResult.exited 0 := hpre 0 (Nat.succ_pos _)
      rw [List.cons_append, run_cons_ok fs _ res h0,
        ih (fun i => res (i + 1)) (fun i hi => hpre (i + 1) (Nat.succ_lt_succ hi)) hfail]
      simp [stepEvents]

lemma step_append_invoke (fs : String) (r : InvokeResult) (tail : List Event)
    (H : ∀ n a r0, tail[n]? = some (Event.invoke a r0) →
      ∃ g, a = cmdArgs g ∧ 2 ≤ n ∧ tail[n - 1]? = some Event.flush ∧
        tail[n - 2]? = some (Event.print (startLine g)))
    (n : Nat) (a : List String) (r0 : InvokeResult)
    (h : (stepEvents fs r ++ tail)[n]? = some (Event.invoke a r0)) :
    ∃ g, a = cmdArgs g ∧ 2 ≤ n ∧
      (stepEvents fs r ++ tail)[n - 1]? = some Event.flush ∧
      (stepEvents fs r ++ tail)[n - 2]? = some (Event.print (startLine g)) := by
  have hlen : (stepEvents fs r).length = 3 := rfl
  match n with
  | 0 => simp [stepEvents] at h
  | 1 => simp [stepEvents] at h
  | 2 =>
      simp only [stepEvents, List.cons_append, List.getElem?_cons_succ,
        List.getElem?_cons_zero, Option.some.injEq, Event.invoke.injEq] at h
      exact ⟨fs, h.1.symm, Nat.le_refl 2, rfl, rfl⟩
  | m + 3 =>
      rw [List.getElem?_append_right (by rw [hlen]; omega), hlen,
        Nat.add_sub_cancel] at h
      obtain ⟨g, ha, hm, hflush, hprint⟩ := H m a r0 h
      refine ⟨g, ha, by omega, ?_, ?_⟩
      · rw [List.getElem?_append_right (by rw [hlen]; omega), hlen,
          show m + 3 - 1 - 3 = m - 1 by omega]
        exact hflush
      · rw [List.getElem?_append_right (by rw [hlen]; omega), hlen,
          show m + 3 - 2 - 3 = m - 2 by omega]
        exact hprint

lemma singleton_no_invoke (e : Event) (he : ∀ a r0, e ≠ Event.invoke a r0) :
    ∀ n a r0, ([e] : List Event)[n]? = some (Event.invoke a r0) →
      ∃ g, a = cmdArgs g ∧ 2 ≤ n ∧ ([e] : List Event)[n - 1]? = some Event.flush ∧
        ([e] : List Event)[n - 2]? = some (Event.print (startLine g)) := by
  intro n a r0 h
  cases n with
  | zero =>
      rw [List.getElem?_cons_zero, Option.some.injEq] at h
      exact absurd h (he a r0)
  | succ m => simp at h

lemma invocationsOf_append (a b : List Event) :
    invocationsOf (a ++ b) = invocationsOf a ++ invocationsOf b := by
  simp [invocationsOf, List.filterMap_append]

lemma failLine_ne_startLine (fs : String) : failLine fs ≠ startLine fs := by
  intro h
  have hlen := congrArg String.length h
  rw [failLine, startLine, String.length_append, String.length_append] at hlen
  have h29 : " failed. Exiting with code 1.".length = 29 := by decide
  have h30 : "Starting tests with features: ".length = 30 := by decide
  rw [h29, h30] at hlen
  omega

lemma pyProduct_length (gs : List (List String)) :
    (pyProduct gs).length = (gs.map List.length).prod := by
  induction gs with
  | nil => rfl
  | cons g gs ih =>
      simp only [pyProduct, List.map_cons, List.prod_cons, List.length_flatMap,
        List.length_map, ← ih]
      induction g with
      | nil => simp
      | cons x g ihg => simp [ihg, Nat.succ_mul, Nat.add_comm]

lemma pyProduct_cons_length (g : List String) (gs : List (List String)) :
    (pyProduct (g :: gs)).length = g.length * (pyProduct gs).length := by
  rw [pyProduct_length, List.map_cons, List.prod_cons, ← pyProduct_length]

lemma flatMap_map_getD (g : List String) (L : List (List String)) (k : Nat)
    (hk : k < g.length * L.length) :
    (g.flatMap (fun x => L.map (fun c => x :: c))).getD k [] =
      g.getD (k / L.length) "" :: L.getD (k % L.length) [] := by
  induction g generalizing k with
  | nil =>
      rw [List.length_nil, Nat.zero_mul] at hk
      exact absurd hk (Nat.not_lt_zero k)
  | cons x g ih =>
      have hL : 0 < L.length := by
        rcases Nat.eq_zero_or_pos L.length with h0 | h0
        · rw [h0, Nat.mul_zero] at hk
          exact absurd hk (Nat.not_lt_zero k)
        · exact h0
      rw [List.flatMap_cons]
      by_cases hkL : k < L.length
      · have hmap : k < (L.map (fun c => x :: c)).length := by simpa using hkL
        rw [List.getD_append _ _ _ _ hmap, Nat.div_eq_of_lt hkL, Nat.mod_eq_of_lt hkL,
          List.getD_cons_zero, List.getD_eq_getElem _ _ hmap, List.getElem_map,
          List.getD_eq_getElem _ _ hkL]
      · push_neg at hkL
        have hk2 : k - L.length < g.length * L.length := by
          rw [List.length_cons, Nat.succ_mul] at hk
          omega
        rw [List.getD_append_right _ _ _ _ (by simpa using hkL), List.length_map,
          ih (k - L.length) hk2, Nat.div_eq_sub_div hL hkL, Nat.mod_eq_sub_mod hkL,
          List.getD_cons_succ]

lemma take_prod_dvd (gs : List (List String)) (j : Nat) (hj : j < gs.length) :
    (gs.getD j []).length ∣ ((gs.take (j + 1)).map List.length).prod := by
  induction gs generalizing j with
  | nil => exact absurd hj (Nat.not_lt_zero j)
  | cons g gs ih =>
      cases j with
      | zero => simp
      | succ j' =>
          have hj' : j' < gs.length := Nat.lt_of_succ_lt_succ hj
          rw [List.take_succ_cons, List.map_cons, List.prod_cons, List.getD_cons_succ]
          exact Dvd.dvd.mul_left (ih j' hj') g.length

lemma take_drop_prod (gs : List (List String)) (n : Nat) :
    ((gs.take n).map List.length).prod * ((gs.drop n).map List.length).prod =
      (gs.map List.length).prod := by
  rw [← List.prod_append, ← List.map_append, List.take_append_drop]

lemma pyProduct_getD (gs : List (List String)) (k j : Nat)
    (hk : k < (pyProduct gs).length) (hj : j < gs.length) :
    ((pyProduct gs).getD k []).getD j "" =
      (gs.getD j []).getD ((k / tailSizes gs (j + 1)) % (gs.getD j []).length) "" := by
  induction gs generalizing k j with
  | nil => exact absurd hj (Nat.not_lt_zero j)
  | cons g gs ih =>
      rw [pyProduct_cons_length] at hk
      have hT : 0 < (pyProduct gs).length := by
        rcases Nat.eq_zero_or_pos (pyProduct gs).length with h0 | h0
        · rw [h0, Nat.mul_zero] at hk
          exact absurd hk (Nat.not_lt_zero k)
        · exact h0
      have hstep : (pyProduct (g :: gs)).getD k [] =
          g.getD (k / (pyProduct gs).length) "" ::
            (pyProduct gs).getD (k % (pyProduct gs).length) [] :=
        flatMap_map_getD g (pyProduct gs) k hk
      rw [hstep]
      cases j with
      | zero =>
          simp only [Nat.zero_add, List.getD_cons_zero]
          have ht : tailSizes (g :: gs) 1 = (pyProduct gs).length := by
            rw [pyProduct_length]
            rfl
          rw [ht]
          have hdiv : k / (pyProduct gs).length < g.length :=
            Nat.div_lt_of_lt_mul (by rw [Nat.mul_comm]; exact hk)
          rw [Nat.mod_eq_of_lt hdiv]
      | succ j' =>
          have hj' : j' < gs.length := Nat.lt_of_succ_lt_succ hj
          rw [List.getD_cons_succ, List.getD_cons_succ,
            ih (k % (pyProduct gs).length) j' (Nat.mod_lt _ hT) hj']
          have htails : tailSizes (g :: gs) (j' + 1 + 1) = tailSizes gs (j' + 1) := rfl
          rw [htails]
          have hidx : k % (pyProduct gs).length / tailSizes gs (j' + 1)
                % (gs.getD j' []).length
              = k / tailSizes gs (j' + 1) % (gs.getD j' []).length := by
            have hTeq : (pyProduct gs).length =
                tailSizes gs (j' + 1) * ((gs.take (j' + 1)).map List.length).prod := by
              rw [pyProduct_length, tailSizes, Nat.mul_comm]
              exact (take_drop_prod gs (j' + 1)).symm
            rw [hTeq, Nat.mod_mul_right_div_self]
            exact Nat.mod_mod_of_dvd _ (take_prod_dvd gs j' hj')
          rw [hidx]

lemma extendGroups_sizes (gs : List (List String)) :
    (extendGroups gs).map List.length = gs.map (fun g => g.length + 1) := by
  simp [extendGroups, extendGroup, List.map_map, Function.comp]

/-- Claim C1: the number of combinations is the product over the groups of
(number of declared tokens + 1); for the script's three singleton groups
that is 2 × 2 × 2 = 8 invocations in a fully successful run, the all-empty
combination included. -/
theorem c1_combination_count :
    (∀ gs : List (List String),
      (pyProduct (extendGroups gs)).length = (gs.map (fun g => g.length + 1)).prod)
    ∧ mainCombos.length = 8
    ∧ countInvoke (script (fun _ => InvokeResult.exited 0)).1 = 8
    ∧ featuresString ["", "", ""] ∈ mainCombos := by
  refine ⟨fun gs => ?_, by decide, by decide, by decide⟩
  rw [pyProduct_length, extendGroups_sizes]

/-- Claim C5: if every invocation of the external command exits with status 0,
the run finishes the whole loop, the process exits with status 0, the event
trace is exactly one progress line, one flush and one invocation per
combination — so there is no failure line and no trailing success message —
and the number of invocations equals the number of combinations. -/
theorem c5_all_success (combos : List String) (res : Nat → InvokeResult)
    (h : ∀ i, i < combos.length → res i = InvokeResult.exited 0) :
    run combos res =
      (combos.flatMap (fun fs =>
        [Event.print (startLine fs), Event.flush,
         Event.invoke (cmdArgs fs) (InvokeResult.exited 0)]),
       Outcome.ok)
    ∧ exitCode (run combos res).2 = 0
    ∧ countInvoke (run combos res).1 = combos.length := by
  have hrun := run_all_ok combos res h
  refine ⟨hrun, by rw [hrun]; rfl, ?_⟩
  rw [hrun]
  exact countInvoke_triples combos (fun _ => InvokeResult.exited 0)

/-- Witness for C5 at the script's own combination list, every invocation
succeeding. -/
theorem c5_all_success_witness :
    run mainCombos (fun _ => InvokeResult.exited 0) =
      (mainCombos.flatMap (fun fs =>
        [Event.print (startLine fs), Event.flush,
         Event.invoke (cmdArgs fs) (InvokeResult.exited 0)]),
       Outcome.ok)
    ∧ exitCode (run mainCombos (fun _ => InvokeResult.exited 0)).2 = 0
    ∧ countInvoke (run mainCombos (fun _ => InvokeResult.exited 0)).1 = mainCombos.length :=
  c5_all_success mainCombos (fun _ => InvokeResult.exited 0) (fun _ _ => rfl)

/-- Claim C4: if the `k`-th invocation (1-based, in enumeration order) is the
first to exit non-zero, the event trace is exactly `k` progress lines each
followed by a flush and its invocation, then the single failure line naming
the `k`-th combination's joined string; the outcome is the caught failure,
the process exits with code 1, and exactly `k` invocations occur — none
after the `k`-th. -/
theorem c4_first_failure (combos : List String) (res : Nat → InvokeResult) (k : Nat)
    (hk1 : 1 ≤ k) (hk : k ≤ combos.length)
    (hprev : ∀ i, i + 1 < k → res i = InvokeResult.exited 0)
    (c : Nat) (hc : res (k - 1) = InvokeResult.exited (c + 1)) :
    (run combos res).1 =
      (combos.take (k - 1)).flatMap (fun fs =>
        [Event.print (startLine fs), Event.flush,
         Event.invoke (cmdArgs fs) (InvokeResult.exited 0)])
      ++ [Event.print (startLine (combos.getD (k - 1) "")), Event.flush,
          Event.invoke (cmdArgs (combos.getD (k - 1) "")) (InvokeResult.exited (c + 1)),
          Event.print (failLine (combos.getD (k - 1) ""))]
    ∧ (run combos res).2 = Outcome.failedCombo (combos.getD (k - 1) "")
    ∧ exitCode (run combos res).2 = 1
    ∧ countInvoke (run combos res).1 = k := by
  have hlt : k - 1 < combos.length := by omega
  have hdrop : combos.drop (k - 1) = combos.getD (k - 1) "" :: combos.drop k := by
    rw [List.getD_eq_getElem combos "" hlt, List.drop_eq_getElem_cons hlt,
      Nat.sub_add_cancel hk1]
  have hsplit : combos.take (k - 1) ++ combos.getD (k - 1) "" :: combos.drop k = combos := by
    rw [← hdrop, List.take_append_drop]
  have hpre : ∀ i, i < (combos.take (k - 1)).length → res i = InvokeResult.exited 0 := by
    intro i hi
    rw [List.length_take] at hi
    exact hprev i (by omega)
  have hfail : res (combos.take (k - 1)).length = InvokeResult.exited (c + 1) := by
    rw [List.length_take]
    have : min (k - 1) combos.length = k - 1 := by omega
    rw [this]
    exact hc
  have hrun := run_fail_at (combos.take (k - 1)) (combos.getD (k - 1) "")
    (combos.drop k) res c hpre hfail
  rw [hsplit] at hrun
  refine ⟨by rw [hrun], by rw [hrun], by rw [hrun]; rfl, ?_⟩
  rw [hrun]
  simp only [countInvoke_append,
    countInvoke_triples (combos.take (k - 1)) (fun _ => InvokeResult.exited 0),
    List.length_take]
  simp [countInvoke]
  omega

/-- Witness for C4: with the script's eight combinations and the third
invocation the first to exit non-zero (`k = 3`), three progress lines are
printed, the third combination's failure line follows, the outcome is the
caught failure with exit code 1, and exactly three invocations occur. -/
theorem c4_first_failure_witness :
    (run mainCombos (fun i => if i < 2 then InvokeResult.exited 0
        else InvokeResult.exited 101)).1 =
      (mainCombos.take 2).flatMap (fun fs =>
        [Event.print (startLine fs), Event.flush,
         Event.invoke (cmdArgs fs) (InvokeResult.exited 0)])
      ++ [Event.print (startLine (mainCombos.getD 2 "")), Event.flush,
          Event.invoke (cmdArgs (mainCombos.getD 2 "")) (InvokeResult.exited 101),
          Event.print (failLine (mainCombos.getD 2 ""))]
    ∧ (run mainCombos (fun i => if i < 2 then InvokeResult.exited 0
        else InvokeResult.exited 101)).2 = Outcome.failedCombo (mainCombos.getD 2 "")
    ∧ exitCode (run mainCombos (fun i => if i < 2 then InvokeResult.exited 0
        else InvokeResult.exited 101)).2 = 1
    ∧ countInvoke (run mainCombos (fun i => if i < 2 then InvokeResult.exited 0
        else InvokeResult.exited 101)).1 = 3 :=
  c4_first_failure mainCombos
    (fun i => if i < 2 then InvokeResult.exited 0 else InvokeResult.exited 101) 3
    (by decide) (by decide) (fun i hi => if_pos (by omega)) 100 rfl

/-- Claim C7: every invocation attempt in the event trace is immediately preceded
by a flush, which is immediately preceded by the printed line
`"Starting tests with features: <joined combination>"` for the very
combination being invoked — so the progress line is printed and flushed
strictly before the invocation begins. -/
theorem c7_progress_before_invoke (combos : List String) (res : Nat → InvokeResult)
    (n : Nat) (a : List String) (r0 : InvokeResult)
    (h : (run combos res).1[n]? = some (Event.invoke a r0)) :
    ∃ g, a = cmdArgs g ∧ 2 ≤ n ∧
      (run combos res).1[n - 1]? = some Event.flush ∧
      (run combos res).1[n - 2]? = some (Event.print (startLine g)) := by
  induction combos generalizing res n a r0 with
  | nil => simp [run] at h
  | cons fs rest ih =>
      rcases hres : res 0 with c | s | _
      · rcases c with _ | c
        · rw [run_cons_ok fs rest res hres] at h ⊢
          exact step_append_invoke fs (InvokeResult.exited 0) _
            (fun n a r0 => ih (fun i => res (i + 1)) n a r0) n a r0 h
        · rw [run_cons_nonzero fs rest res c hres] at h ⊢
          exact step_append_invoke fs (InvokeResult.exited (c + 1)) _
            (singleton_no_invoke _ (fun a r0 => Event.noConfusion)) n a r0 h
      · rw [run_cons_signaled fs rest res s hres] at h ⊢
        exact step_append_invoke fs (InvokeResult.signaled s) _
          (singleton_no_invoke _ (fun a r0 => Event.noConfusion)) n a r0 h
      · rw [run_cons_startFailure fs rest res hres,
          (List.append_nil (stepEvents fs InvokeResult.startFailure)).symm] at h ⊢
        exact step_append_invoke fs InvokeResult.startFailure []
          (fun n a r0 hx => by simp at hx) n a r0 h

/-- Witness for C7 at the third event of a one-combination successful run. -/
theorem c7_progress_before_invoke_witness :
    ∃ g, cmdArgs "x" = cmdArgs g ∧ 2 ≤ 2 ∧
      (run ["x"] (fun _ => InvokeResult.exited 0)).1[2 - 1]? = some Event.flush ∧
      (run ["x"] (fun _ => InvokeResult.exited 0)).1[2 - 2]? =
        some (Event.print (startLine g)) :=
  c7_progress_before_invoke ["x"] (fun _ => InvokeResult.exited 0) 2 (cmdArgs "x")
    (InvokeResult.exited 0) rfl

/-- Claim C8: every external invocation is made synchronously (one per loop step,
in trace order) with the same fixed leading arguments
`cargo test --verbose --features` plus the combination's joined feature
string as the single final argument: the argument vectors of the
invocations performed are exactly `cmdArgs` applied to a prefix of the
combination list in order; in a fully successful run of the script the
prefix is the whole list. -/
theorem c8_invocation_arguments (combos : List String) (res : Nat → InvokeResult) :
    (∃ m, m ≤ combos.length ∧
      invocationsOf (run combos res).1 = (combos.take m).map cmdArgs)
    ∧ invocationsOf (script (fun _ => InvokeResult.exited 0)).1 =
        mainCombos.map cmdArgs := by
  constructor
  · induction combos generalizing res with
    | nil => exact ⟨0, Nat.le_refl 0, rfl⟩
    | cons fs rest ih =>
        rcases hres : res 0 with c | s | _
        · rcases c with _ | c
          · obtain ⟨m, hm, heq⟩ := ih (fun i => res (i + 1))
            refine ⟨m + 1, Nat.succ_le_succ hm, ?_⟩
            rw [run_cons_ok fs rest res hres]
            simp only [invocationsOf_append, heq, List.take_succ_cons, List.map_cons]
            rfl
          · refine ⟨1, Nat.succ_le_succ (Nat.zero_le _), ?_⟩
            rw [run_cons_nonzero fs rest res c hres]
            rfl
        · refine ⟨1, Nat.succ_le_succ (Nat.zero_le _), ?_⟩
          rw [run_cons_signaled fs rest res s hres]
          rfl
        · refine ⟨1, Nat.succ_le_succ (Nat.zero_le _), ?_⟩
          rw [run_cons_startFailure fs rest res hres]
          rfl
  · decide

/-- Claim C9: after the extension loop every feature group contains the
empty-string member and in particular is non-empty; the groups are static
data, unchanged for the rest of the run. -/
theorem c9_groups_nonempty (gs : List (List String)) (g : List String)
    (h : g ∈ extendGroups gs) : g ≠ [] ∧ "" ∈ g := by
  obtain ⟨g0, hg0, rfl⟩ := List.mem_map.mp h
  exact ⟨by simp [extendGroup], by simp [extendGroup]⟩

/-- Witness for C9 on the script's first extended group. -/
theorem c9_groups_nonempty_witness :
    (["vapoursynth-functions", ""] : List String) ≠ []
    ∧ "" ∈ (["vapoursynth-functions", ""] : List String) :=
  c9_groups_nonempty features ["vapoursynth-functions", ""] (by decide)

/-- Claim C10: the empty-string variant is appended as the last element of each
group, so the first combination of the odometer enumeration selects every
group's named token and the last combination is the all-empty one. -/
theorem c10_empty_variant_last :
    (∀ g : List String, (extendGroup g).getLast? = some "")
    ∧ (pyProduct featuresExtended).head? =
        some ["vapoursynth-functions", "vsscript-functions", "f16-pixel-type"]
    ∧ (pyProduct featuresExtended).getLast? = some ["", "", ""]
    ∧ mainCombos.head? = some "vapoursynth-functions vsscript-functions f16-pixel-type"
    ∧ mainCombos.getLast? = some "  " := by
  refine ⟨fun g => ?_, by decide, by decide, by decide, by decide⟩
  simp [extendGroup]

/-- Claim C3: each combination is joined with a single ASCII space in
group-declaration order, empty selections kept as zero-length segments
(so unsanitized adjacent, leading or trailing spaces occur); on the
two-group example the joined strings in enumeration order are
`"x y"`, `"x "`, `" y"`, `" "`. -/
theorem c3_join_semantics :
    ((pyProduct [["x", ""], ["y", ""]]).map featuresString = ["x y", "x ", " y", " "])
    ∧ (∀ t ∈ pyProduct featuresExtended,
        featuresString t =
          t.headI ++ " " ++ (t[1]?).getD "" ++ " " ++ (t[2]?).getD "") := by
  exact ⟨by decide, by decide⟩

/-- Witness for C3 at the all-empty combination: the join keeps the empty
segments, giving the two-space string. -/
theorem c3_join_semantics_witness :
    featuresString ["", "", ""] =
      (["", "", ""] : List String).headI ++ " "
        ++ ((["", "", ""] : List String)[1]?).getD ""
        ++ " " ++ ((["", "", ""] : List String)[2]?).getD "" :=
  c3_join_semantics.2 ["", "", ""] (by decide)

/-- Counterexample to C6 as stated: when the external command cannot be
started (the `subprocess.run` call raises `OSError` rather than
`CalledProcessError`), the `except subprocess.CalledProcessError` handler
does not fire — the run does not end in the caught-failure state and no
failure line naming the combination is printed, contradicting "surfaces
identically to the caller". -/
theorem c6_counterexample :
    (run mainCombos (fun _ => InvokeResult.startFailure)).2 ≠
        Outcome.failedCombo (mainCombos.getD 0 "")
      ∧ Event.print (failLine (mainCombos.getD 0 "")) ∉
          (run mainCombos (fun _ => InvokeResult.startFailure)).1 := by
  decide

/-- Claim C6, amended: a non-zero exit status and an abnormal termination by a
signal surface identically — the failure line naming the combination is
printed and the process exits with code 1 — but a command that could not
be started propagates an uncaught `OSError`: no failure line naming the
combination is printed and the interpreter dies with a traceback (its exit
status is 1, but through the crash path, not the handler). -/
theorem c6_failure_surfacing (fs : String) (rest : List String)
    (res res2 : Nat → InvokeResult)
    (h : (∃ c, res 0 = InvokeResult.exited (c + 1)) ∨
      ∃ s, res 0 = InvokeResult.signaled s)
    (h2 : res2 0 = InvokeResult.startFailure) :
    ((run (fs :: rest) res).2 = Outcome.failedCombo fs
      ∧ Event.print (failLine fs) ∈ (run (fs :: rest) res).1
      ∧ exitCode (run (fs :: rest) res).2 = 1)
    ∧ ((run (fs :: rest) res2).2 = Outcome.crashed
      ∧ Event.print (failLine fs) ∉ (run (fs :: rest) res2).1
      ∧ exitCode (run (fs :: rest) res2).2 = 1) := by
  constructor
  · rcases h with ⟨c, hc⟩ | ⟨s, hs⟩
    · rw [run_cons_nonzero fs rest res c hc]
      exact ⟨rfl, by simp [stepEvents], rfl⟩
    · rw [run_cons_signaled fs rest res s hs]
      exact ⟨rfl, by simp [stepEvents], rfl⟩
  · rw [run_cons_startFailure fs rest res2 h2]
    refine ⟨rfl, ?_, rfl⟩
    intro hmem
    simp [stepEvents] at hmem
    exact failLine_ne_startLine fs hmem

/-- Witness for the amended C6: one run whose first invocation exits with
status 2 and one whose first invocation cannot be started. -/
theorem c6_failure_surfacing_witness :
    ((run ["x"] (fun _ => InvokeResult.exited 2)).2 = Outcome.failedCombo "x"
      ∧ Event.print (failLine "x") ∈ (run ["x"] (fun _ => InvokeResult.exited 2)).1
      ∧ exitCode (run ["x"] (fun _ => InvokeResult.exited 2)).2 = 1)
    ∧ ((run ["x"] (fun _ => InvokeResult.startFailure)).2 = Outcome.crashed
      ∧ Event.print (failLine "x") ∉ (run ["x"] (fun _ => InvokeResult.startFailure)).1
      ∧ exitCode (run ["x"] (fun _ => InvokeResult.startFailure)).2 = 1) :=
  c6_failure_surfacing "x" [] (fun _ => InvokeResult.exited 2)
    (fun _ => InvokeResult.startFailure) (Or.inl ⟨1, rfl⟩) rfl

/-- Claim C2: the enumeration is a pure function of the group definitions, hence
deterministic and identical on every run, and it follows odometer ordering
over the groups in declaration order: coordinate `j` of the `k`-th
combination is group `j`'s token at mixed-radix digit
`(k / (product of the sizes of the later groups)) % (size of group j)` —
so the last-declared group's variant cycles fastest and earlier groups
cycle slowest. -/
theorem c2_odometer_order (gs : List (List String)) (k j : Nat)
    (hk : k < (pyProduct gs).length) (hj : j < gs.length) :
    ((pyProduct gs).getD k []).getD j "" =
      (gs.getD j []).getD ((k / tailSizes gs (j + 1)) % (gs.getD j []).length) "" :=
  pyProduct_getD gs k j hk hj

/-- Witness for C2 on the script's extended groups: coordinate 2 of
combination 5 is the last group's variant at digit `(5 / 1) % 2 = 1`,
the empty string. -/
theorem c2_odometer_order_witness :
    ((pyProduct featuresExtended).getD 5 []).getD 2 "" =
      (featuresExtended.getD 2 []).getD
        ((5 / tailSizes featuresExtended (2 + 1)) % (featuresExtended.getD 2 []).length)
        "" :=
  c2_odometer_order featuresExtended 5 2 (by decide) (by decide)

/-- Witness for C1 on a two-group list with one and two declared tokens:
the extended product has (1 + 1) × (2 + 1) = 6 combinations. -/
theorem c1_combination_count_witness :
    (pyProduct (extendGroups [["x"], ["y", "z"]])).length =
      (([["x"], ["y", "z"]] : List (List String)).map (fun g => g.length + 1)).prod :=
  c1_combination_count.1 [["x"], ["y", "z"]]

/-- Witness for C8 on a two-combination run whose first invocation fails. -/
theorem c8_invocation_arguments_witness :
    ∃ m, m ≤ (["x", "y"] : List String).length ∧
      invocationsOf (run ["x", "y"] (fun _ => InvokeResult.exited 1)).1 =
        ((["x", "y"] : List String).take m).map cmdArgs :=
  (c8_invocation_arguments ["x", "y"] (fun _ => InvokeResult.exited 1)).1

/-- Witness for C10 on a one-token group: the appended empty-string variant
is the last element. -/
theorem c10_empty_variant_last_witness :
    (extendGroup ["x"]).getLast? = some "" :=
  c10_empty_variant_last.1 ["x"]
